import Mathlib

/-!
# Verification of the jwasm WebAssembly binary decoder

A shallow embedding of the jwasm Go sources (parser.go, module.go, the LEB128
readers, name/value-type/instruction decoding) over byte streams modelled as
`List Nat`, together with theorems checking the repository's specification
against that embedding.

Modelling conventions:
* A Go `io.Reader` positioned in an in-memory buffer is the remaining byte
  list.  Every decoding function takes the stream and returns the Go result
  (`Except GoErr α` for `(α, error)`) paired with the stream as the reader
  leaves it: Go readers keep whatever they consumed even when an error is
  returned, so the error case also carries the final position.
* Go's `io.EOF` sentinel is the distinguished value `GoErr.eof`; errors built
  with `fmt.Errorf("...: %w", err)` are `GoErr.wrap msg err` and ones built
  without `%w` are `GoErr.msg s`.  The identity test `err == io.EOF` in
  parser.go is `e = GoErr.eof`, which a wrapped error never satisfies.
* `math/big` integers are `Nat` (arbitrary precision, as in Go).
* Go machine integers are `Nat` with explicit `% 2 ^ w` where overflow can
  occur (the `uint32` locals counters in the code section).
-/

namespace Jwasm

/-- Go error values as observed by the jwasm decoder: the `io.EOF` sentinel,
`io.ErrUnexpectedEOF`, a plain `fmt.Errorf` message, and a wrapping
`fmt.Errorf(..., %w)` message. -/
inductive GoErr where
  | eof : GoErr
  | unexpectedEof : GoErr
  | msg (s : String) : GoErr
  | wrap (s : String) (e : GoErr) : GoErr
deriving DecidableEq, Repr

deriving instance DecidableEq for Except

/-- Hex digit character, lowercase, as produced by Go's `%x` format verb. -/
def hexDigit (d : Nat) : Char :=
  if d < 10 then Char.ofNat (48 + d) else Char.ofNat (87 + d)

/-- Hex digit character, uppercase, as produced by Go's `%X` format verb. -/
def hexDigitU (d : Nat) : Char :=
  if d < 10 then Char.ofNat (48 + d) else Char.ofNat (55 + d)

/-- Fuel-bounded most-significant-first digit expansion of `n` in base `b`,
mapping each digit through `dig`.  The fuel argument makes the recursion
structural; `n` itself is always enough fuel since `n / b < n` for `n > 0`. -/
def digitsGo (dig : Nat → Char) (b : Nat) : Nat → Nat → List Char
  | _, 0 => []
  | 0, _ => []
  | f + 1, n + 1 => digitsGo dig b f ((n + 1) / b) ++ [dig ((n + 1) % b)]

/-- Go `fmt` rendering of `n` with verb `%x` (lowercase hex, no padding). -/
def hexStr (n : Nat) : String :=
  if n = 0 then "0" else String.mk (digitsGo hexDigit 16 n n)

/-- Go `fmt` rendering of `n` with verb `%X` (uppercase hex, no padding). -/
def hexStrU (n : Nat) : String :=
  if n = 0 then "0" else String.mk (digitsGo hexDigitU 16 n n)

/-- Go `fmt` rendering of `n` with verb `%d`. -/
def decStr (n : Nat) : String :=
  if n = 0 then "0" else String.mk (digitsGo (fun d => Char.ofNat (48 + d)) 10 n n)

/-- `math/big`'s `Int.BitLen`: the minimal number of bits of `n`
(0 for `n = 0`), written with structural fuel so that it evaluates by
kernel reduction. -/
def bitLenGo : Nat → Nat → Nat
  | _, 0 => 0
  | 0, _ => 0
  | f + 1, n + 1 => bitLenGo f ((n + 1) / 2) + 1

/-- Minimal bit-width of a natural number, as `big.Int.BitLen` computes it. -/
def bitLen (n : Nat) : Nat := bitLenGo n n

/-!
## The unsigned LEB128 reader (`ReadUleb128`, `ReadUint8`, `ReadUint32`)

Embedding of the `leb.go` source file (src/unnamed/part_004).
-/

/-- The loop body of Go `ReadUleb128`: reads bytes one at a time; each byte's
low seven bits are or-ed into the accumulator shifted by `7 * bytesRead`; a
byte whose high bit is clear terminates the loop.  `binary.Read` of a single
byte fails with `io.EOF` exactly when the stream is empty, which `ReadUleb128`
wraps. -/
def ulebLoop : List Nat → Nat → Nat → Except GoErr Nat × List Nat
  | [], _, _ =>
    (Except.error (GoErr.wrap "reading uleb128 byte failed" GoErr.eof), [])
  | b :: t, bytesRead, result =>
    let result := result ||| ((b &&& 127) <<< (7 * bytesRead))
    if (b &&& 128) >>> 7 = 0 then
      (Except.ok result, t)
    else
      ulebLoop t (bytesRead + 1) result

/-- Go `ReadUleb128`: decodes one unsigned LEB128 integer of arbitrary width
from the front of the stream. -/
def ReadUleb128 (s : List Nat) : Except GoErr Nat × List Nat :=
  ulebLoop s 0 0

/-- Go `ReadUint8`: decodes a full LEB128 value and fails with an overflow
error when its minimal bit-width exceeds 8; otherwise `uint8(value.Uint64())`
returns the value itself since it fits. -/
def ReadUint8 (s : List Nat) : Except GoErr Nat × List Nat :=
  match ReadUleb128 s with
  | (Except.error e, t) =>
    (Except.error (GoErr.wrap "reading uleb128 for uint8 failed" e), t)
  | (Except.ok value, t) =>
    if bitLen value > 8 then
      (Except.error (GoErr.msg ("uleb128 is too large for an uint8: " ++ decStr value)), t)
    else
      (Except.ok value, t)

/-- Go `ReadUint32`: decodes a full LEB128 value and fails with an overflow
error when its minimal bit-width exceeds 32 (the Go source reuses the
"uint8" wording in both of its error messages). -/
def ReadUint32 (s : List Nat) : Except GoErr Nat × List Nat :=
  match ReadUleb128 s with
  | (Except.error e, t) =>
    (Except.error (GoErr.wrap "reading uleb128 for uint8 failed" e), t)
  | (Except.ok value, t) =>
    if bitLen value > 32 then
      (Except.error (GoErr.msg ("uleb128 is too large for an uint8: " ++ decStr value)), t)
    else
      (Except.ok value, t)

/-!
## Specification-side view of LEB128 encodings

These definitions follow the spec's wording (§4.1, §8): an encoding is a
nonempty byte sequence whose continuation bytes have the high bit set and
whose final byte has it clear; each byte contributes its low seven bits at a
shift of `7 * position`.
-/

/-- Is `l` a complete unsigned LEB128 encoding?  Every byte before the last is
a continuation byte (high bit set), the last byte has the high bit clear. -/
def isUlebEncoding : List Nat → Bool
  | [] => false
  | [b] => decide (b < 128)
  | b :: t => decide (128 ≤ b ∧ b < 256) && isUlebEncoding t

/-- The integer value of a LEB128 encoding: each byte's low seven bits at
shift `7 * position`, little-endian. -/
def ulebValue : List Nat → Nat
  | [] => 0
  | b :: t => b % 128 + 128 * ulebValue t

/-!
## Name decoding (`parseName`, src/unnamed/part_000)

Go strings are byte sequences; `string(bytes)` copies the bytes without any
validation, so a decoded name is modelled as the raw byte list.
-/

/-- Go `parseName`: a `ReadUint32` length prefix, then that many raw bytes
read in one `r.Read` call.  On an in-memory source the call returns
`min size available` bytes; the decoder fails when that is short of `size`.
The bytes are converted with `string(bytes)`, which performs no UTF-8
validation. -/
def parseName (s : List Nat) : Except GoErr (List Nat) × List Nat :=
  match ReadUint32 s with
  | (Except.error e, t) =>
    (Except.error (GoErr.wrap "reading vector size failed" e), t)
  | (Except.ok size, t) =>
    if min size t.length ≠ size then
      (Except.error (GoErr.msg ("reading vector failed, wanted [" ++ decStr size ++
        "] bytes, got only [" ++ decStr (min size t.length) ++ "] bytes")), List.drop size t)
    else
      (Except.ok (List.take size t), List.drop size t)

/-- Go `ValueType` with its `numberType` / `vectorType` / `referenceType`
implementations, each carrying the wire code and display name from the
source. -/
inductive ValueType where
  | num (code : Nat) (name : String) : ValueType
  | vec (code : Nat) (name : String) : ValueType
  | ref (code : Nat) (name : String) : ValueType
deriving DecidableEq, Repr

/-- Go `parseValueType`: one byte, matched against the closed set of known
codes; unknown bytes are a decode failure naming the byte. -/
def parseValueType (s : List Nat) : Except GoErr ValueType × List Nat :=
  match s with
  | [] => (Except.error (GoErr.wrap "reading value type byte failed" GoErr.eof), [])
  | b :: t =>
    if b = 0x7F then (Except.ok (ValueType.num 0x7F "i32"), t)
    else if b = 0x7E then (Except.ok (ValueType.num 0x7E "i64"), t)
    else if b = 0x7D then (Except.ok (ValueType.num 0x7D "f32"), t)
    else if b = 0x7C then (Except.ok (ValueType.num 0x7C "f64"), t)
    else if b = 0x7B then (Except.ok (ValueType.vec 0x7B "v128"), t)
    else if b = 0x70 then (Except.ok (ValueType.ref 0x70 "funcref"), t)
    else if b = 0x6F then (Except.ok (ValueType.ref 0x6F "externref"), t)
    else
      (Except.error (GoErr.msg ("reading value type failed, unknown code [0x" ++
        hexStr b ++ "]")), t)

/-- The `for i := 0; i < int(size); i++` loop of Go `parseResultType`,
collecting `size` value types in order. -/
def resultTypeLoop : Nat → List Nat → Except GoErr (List ValueType) × List Nat
  | 0, s => (Except.ok [], s)
  | k + 1, s =>
    match parseValueType s with
    | (Except.error e, t) =>
      (Except.error (GoErr.wrap "parsing value type for result type failed" e), t)
    | (Except.ok vt, t) =>
      match resultTypeLoop k t with
      | (Except.ok l, u) => (Except.ok (vt :: l), u)
      | (Except.error e, u) => (Except.error e, u)

/-- Go `parseResultType`: a `ReadUint32` count followed by that many value
types. -/
def parseResultType (s : List Nat) : Except GoErr (List ValueType) × List Nat :=
  match ReadUint32 s with
  | (Except.error e, t) =>
    (Except.error (GoErr.wrap "reading result type vector length failed" e), t)
  | (Except.ok size, t) => resultTypeLoop size t

/-- Go `FunctionType`: ordered parameter and result `ValueType` sequences. -/
structure FunctionType where
  ParameterTypes : List ValueType
  ResultTypes : List ValueType
deriving DecidableEq, Repr

/-- Go `parseFunctionType`: fixed header byte `0x60`, then the parameter and
result type vectors, in that order. -/
def parseFunctionType (s : List Nat) : Except GoErr FunctionType × List Nat :=
  match s with
  | [] => (Except.error (GoErr.wrap "reading function type header failed" GoErr.eof), [])
  | b :: t =>
    if b ≠ 0x60 then
      (Except.error (GoErr.msg ("function type header wrong, expected [0x60], got [0x" ++
        hexStr b ++ "]")), t)
    else
      match parseResultType t with
      | (Except.error e, u) =>
        (Except.error (GoErr.wrap "parsing function type failed for rt1" e), u)
      | (Except.ok rt1, u) =>
        match parseResultType u with
        | (Except.error e, v) =>
          (Except.error (GoErr.wrap "parsing function type failed for rt2" e), v)
        | (Except.ok rt2, v) => (Except.ok ⟨rt1, rt2⟩, v)

/-!
## Instructions (src/unnamed/part_001)
-/

/-- Go `instruction` variants supported by the decoder: `localGet` with its
local index immediate, and `int32Add` with no immediates. -/
inductive Instruction where
  | localGet (x : Nat) : Instruction
  | int32Add : Instruction
deriving DecidableEq, Repr

/-- Go `parseLocalGet`: the `0x20` immediate, a `ReadUint32` local index. -/
def parseLocalGet (s : List Nat) : Except GoErr Instruction × List Nat :=
  match ReadUint32 s with
  | (Except.error e, t) =>
    (Except.error (GoErr.wrap "reading x for LocalGet failed" e), t)
  | (Except.ok x, t) => (Except.ok (Instruction.localGet x), t)

/-- The error message Go builds for an unrecognized opcode
(`fmt.Errorf` with verb `%#X`). -/
def unknownOpcodeMsg (b : Nat) : String :=
  "parsing instructions failed, unknown opcode: [0X" ++ hexStrU b ++ "]"

/-- Go `parseInstruction`: dispatch on the already-read opcode byte. -/
def parseInstruction (b : Nat) (s : List Nat) : Except GoErr Instruction × List Nat :=
  if b = 0x20 then parseLocalGet s
  else if b = 0x6A then (Except.ok Instruction.int32Add, s)
  else (Except.error (GoErr.msg (unknownOpcodeMsg b)), s)

/-- The `for` loop of Go `parseInstructions`, with structural fuel (one unit
per loop iteration; each iteration consumes at least the opcode byte, so
`length + 1` fuel always suffices).  Reading the opcode at end-of-input fails;
the terminator byte `0x0B` is consumed and ends the loop; an instruction
decode failure is replaced by the unknown-opcode message, exactly as in the
source. -/
def parseInstructionsGo : Nat → List Nat → Except GoErr (List Instruction) × List Nat
  | 0, s => (Except.error (GoErr.msg "out of fuel"), s)
  | fuel + 1, s =>
    match s with
    | [] => (Except.error (GoErr.wrap "reading instruction byte failed" GoErr.eof), [])
    | b :: t =>
      if b = 0x0B then (Except.ok [], t)
      else
        match parseInstruction b t with
        | (Except.error _, u) => (Except.error (GoErr.msg (unknownOpcodeMsg b)), u)
        | (Except.ok i, u) =>
          match parseInstructionsGo fuel u with
          | (Except.ok l, v) => (Except.ok (i :: l), v)
          | (Except.error e, v) => (Except.error e, v)

/-- Go `parseInstructions`: the instruction-sequence loop, run with enough
fuel for the stream at hand. -/
def parseInstructions (s : List Nat) : Except GoErr (List Instruction) × List Nat :=
  parseInstructionsGo (s.length + 1) s

/-!
## Sections (module.go)
-/

/-- Go `exportDescription` variants, each carrying its index. -/
inductive ExportDescription where
  | func (functionIndex : Nat) : ExportDescription
  | table (tableIndex : Nat) : ExportDescription
  | mem (memoryIndex : Nat) : ExportDescription
  | global (globalIndex : Nat) : ExportDescription
deriving DecidableEq, Repr

/-- Go `export` struct: a name and an `exportDescription` interface value.
The Go `switch` that fills the description has no `default` case, so the
interface can remain `nil`: that is the `none` case. -/
structure ExportEntry where
  name : List Nat
  exportDescription : Option ExportDescription
deriving DecidableEq, Repr

/-- Go `functionCode`: the locals map (`map[ValueType]uint32`, keyed by
pointer-identity interface values and therefore holding one entry per
declared run; modelled as the list of its entries) and the decoded body. -/
structure FunctionCode where
  locals : List (ValueType × Nat)
  body : List Instruction
deriving DecidableEq, Repr

/-- Go `Section` interface with the five implemented section kinds. -/
inductive Section where
  | custom (name : List Nat) (data : List Nat) : Section
  | typeS (FunctionTypes : List FunctionType) : Section
  | functionS (typeIndices : List Nat) : Section
  | exportS (exports : List ExportEntry) : Section
  | codeS (functionCode : List FunctionCode) : Section
deriving DecidableEq, Repr

/-- Go `io.LimitReader(r, n)` around a sub-decoder: the sub-decoder sees at
most the next `n` bytes of the stream (end-of-input at the cap), and whatever
it leaves unconsumed inside the cap stays in the underlying stream, followed
by the bytes beyond the cap. -/
def withLimit (n : Nat) (p : List Nat → Except GoErr α × List Nat)
    (s : List Nat) : Except GoErr α × List Nat :=
  match p (List.take n s) with
  | (r, leftover) => (r, leftover ++ List.drop n s)

/-- Go `parseCustomSection`: a name, then `io.ReadAll` of the remaining
bounded region as the opaque payload. -/
def parseCustomSection (s : List Nat) : Except GoErr Section × List Nat :=
  match parseName s with
  | (Except.error e, t) =>
    (Except.error (GoErr.wrap "reading custom section name failed" e), t)
  | (Except.ok sectionName, t) => (Except.ok (Section.custom sectionName t), [])

/-- The function-type vector loop of Go `parseTypeSection`. -/
def typeSectionLoop : Nat → List Nat → Except GoErr (List FunctionType) × List Nat
  | 0, s => (Except.ok [], s)
  | k + 1, s =>
    match parseFunctionType s with
    | (Except.error e, t) =>
      (Except.error (GoErr.wrap "reading function type failed" e), t)
    | (Except.ok ft, t) =>
      match typeSectionLoop k t with
      | (Except.ok l, u) => (Except.ok (ft :: l), u)
      | (Except.error e, u) => (Except.error e, u)

/-- Go `parseTypeSection`: a `ReadUint32` count of function types, then that
many function types. -/
def parseTypeSection (s : List Nat) : Except GoErr Section × List Nat :=
  match ReadUint32 s with
  | (Except.error e, t) =>
    (Except.error (GoErr.wrap "reading vector size of function types failed" e), t)
  | (Except.ok numTypes, t) =>
    match typeSectionLoop numTypes t with
    | (Except.ok l, u) => (Except.ok (Section.typeS l), u)
    | (Except.error e, u) => (Except.error e, u)

/-- The type-index vector loop of Go `parseFunctionSection`. -/
def functionSectionLoop : Nat → List Nat → Except GoErr (List Nat) × List Nat
  | 0, s => (Except.ok [], s)
  | k + 1, s =>
    match ReadUint32 s with
    | (Except.error e, t) =>
      (Except.error (GoErr.wrap "reading type index in function section failed" e), t)
    | (Except.ok idx, t) =>
      match functionSectionLoop k t with
      | (Except.ok l, u) => (Except.ok (idx :: l), u)
      | (Except.error e, u) => (Except.error e, u)

/-- Go `parseFunctionSection`: a `ReadUint32` count, then that many
`ReadUint32` type indices. -/
def parseFunctionSection (s : List Nat) : Except GoErr Section × List Nat :=
  match ReadUint32 s with
  | (Except.error e, t) =>
    (Except.error (GoErr.wrap "reading vector size of function section failed" e), t)
  | (Except.ok numIndices, t) =>
    match functionSectionLoop numIndices t with
    | (Except.ok l, u) => (Except.ok (Section.functionS l), u)
    | (Except.error e, u) => (Except.error e, u)

/-- The export vector loop of Go `parseExportSection`, byte for byte as in the
source: the name, then `binary.Read(r, ..., &b)` for the description tag, then
a second `binary.Read(r, ..., &b)` — into the same variable `b` — for the
index, while `var x uint32` is never assigned and stays `0`.  The `switch`
therefore dispatches on the second byte, every description carries index `0`,
and a byte with no matching case leaves the description `nil` (`none`). -/
def exportSectionLoop : Nat → List Nat → Except GoErr (List ExportEntry) × List Nat
  | 0, s => (Except.ok [], s)
  | k + 1, s =>
    match parseName s with
    | (Except.error e, t) =>
      (Except.error (GoErr.wrap "parsing name of export failed" e), t)
    | (Except.ok name, t) =>
      match t with
      | [] =>
        (Except.error (GoErr.wrap "reading export description type byte failed" GoErr.eof), [])
      | b :: u =>
        match u with
        | [] =>
          (Except.error (GoErr.wrap "reading export description index failed" GoErr.eof), [])
        | b2 :: v =>
          let b := b2
          let x : Nat := 0
          let exportDescription : Option ExportDescription :=
            if b = 0x00 then some (ExportDescription.func x)
            else if b = 0x01 then some (ExportDescription.table x)
            else if b = 0x02 then some (ExportDescription.mem x)
            else if b = 0x03 then some (ExportDescription.global x)
            else none
          match exportSectionLoop k v with
          | (Except.ok l, w) => (Except.ok (⟨name, exportDescription⟩ :: l), w)
          | (Except.error e, w) => (Except.error e, w)

/-- Go `parseExportSection`: a `ReadUint32` count of exports, then the export
vector loop. -/
def parseExportSection (s : List Nat) : Except GoErr Section × List Nat :=
  match ReadUint32 s with
  | (Except.error e, t) =>
    (Except.error (GoErr.wrap "reading vector size of export section failed" e), t)
  | (Except.ok numExports, t) =>
    match exportSectionLoop numExports t with
    | (Except.ok l, u) => (Except.ok (Section.exportS l), u)
    | (Except.error e, u) => (Except.error e, u)

/-- One execution of Go `locals[valueType] += n`.  The map is
`map[ValueType]uint32`, and `valueType` is the interface value returned by
this iteration's `parseValueType` call: a pointer to a freshly allocated
`numberType`/`vectorType`/`referenceType` struct.  Interface map keys
compare by dynamic type and pointer identity, and the fresh allocation is
distinct from every pointer already in the map, so the `+=` never finds an
existing entry: it always inserts a new one with count `0 + n` as `uint32`.
The map is modelled as the list of its entries, one per run; two entries may
carry equal value-type data while sitting under distinct pointer keys. -/
def insertFreshLocal (locals : List (ValueType × Nat)) (vt : ValueType) (n : Nat) :
    List (ValueType × Nat) :=
  locals ++ [(vt, (0 + n) % 4294967296)]

/-- The locals vector loop of Go `parseCodeSection`: `numLocals` repetitions
of a `ReadUint32` count and a value type, written into the locals map with
`locals[valueType] += n` — which, the key being a fresh pointer every
iteration, always inserts a new entry (see `insertFreshLocal`). -/
def codeLocalsLoop : Nat → List (ValueType × Nat) → List Nat →
    Except GoErr (List (ValueType × Nat)) × List Nat
  | 0, locals, s => (Except.ok locals, s)
  | k + 1, locals, s =>
    match ReadUint32 s with
    | (Except.error e, t) =>
      (Except.error (GoErr.wrap "reading function locals n failed" e), t)
    | (Except.ok n, t) =>
      match parseValueType t with
      | (Except.error e, u) =>
        (Except.error (GoErr.wrap "reading function locals value type failed" e), u)
      | (Except.ok valueType, u) =>
        codeLocalsLoop k (insertFreshLocal locals valueType n) u

/-- One code-section entry inside its `io.LimitReader(r, codeSize)` bound:
the locals-count vector, then the instruction sequence. -/
def codeEntryBody (s : List Nat) : Except GoErr FunctionCode × List Nat :=
  match ReadUint32 s with
  | (Except.error e, t) =>
    (Except.error (GoErr.wrap "reading vector size of function locals failed" e), t)
  | (Except.ok numLocals, t) =>
    match codeLocalsLoop numLocals [] t with
    | (Except.error e, u) => (Except.error e, u)
    | (Except.ok locals, u) =>
      match parseInstructions u with
      | (Except.error e, v) =>
        (Except.error (GoErr.wrap "reading function body failed" e), v)
      | (Except.ok instructions, v) => (Except.ok ⟨locals, instructions⟩, v)

/-- The entry loop of Go `parseCodeSection`: each entry declares its byte
length with `ReadUint32` and is decoded inside an `io.LimitReader` of that
length. -/
def codeSectionLoop : Nat → List Nat → Except GoErr (List FunctionCode) × List Nat
  | 0, s => (Except.ok [], s)
  | k + 1, s =>
    match ReadUint32 s with
    | (Except.error e, t) =>
      (Except.error (GoErr.wrap "reading vector size of function code failed" e), t)
    | (Except.ok codeSize, t) =>
      match withLimit codeSize codeEntryBody t with
      | (Except.error e, u) => (Except.error e, u)
      | (Except.ok fc, u) =>
        match codeSectionLoop k u with
        | (Except.ok l, v) => (Except.ok (fc :: l), v)
        | (Except.error e, v) => (Except.error e, v)

/-- Go `parseCodeSection`: a `ReadUint32` count of code entries, then the
entry loop. -/
def parseCodeSection (s : List Nat) : Except GoErr Section × List Nat :=
  match ReadUint32 s with
  | (Except.error e, t) =>
    (Except.error (GoErr.wrap "reading vector size of code section failed" e), t)
  | (Except.ok numEntries, t) =>
    match codeSectionLoop numEntries t with
    | (Except.ok l, u) => (Except.ok (Section.codeS l), u)
    | (Except.error e, u) => (Except.error e, u)

/-- Go `parseSection`: one id byte (end-of-input here returns the bare
`io.EOF`, the loop's terminal signal), a `ReadUint32` declared byte length,
then dispatch on the id inside an `io.LimitReader` of that length; an unknown
id is an error and reads nothing from the bounded region. -/
def parseSection (s : List Nat) : Except GoErr Section × List Nat :=
  match s with
  | [] => (Except.error GoErr.eof, [])
  | sectionId :: t =>
    match ReadUint32 t with
    | (Except.error e, u) =>
      (Except.error (GoErr.wrap "reading section size failed" e), u)
    | (Except.ok sectionSize, u) =>
      if sectionId = 0 then withLimit sectionSize parseCustomSection u
      else if sectionId = 1 then withLimit sectionSize parseTypeSection u
      else if sectionId = 3 then withLimit sectionSize parseFunctionSection u
      else if sectionId = 7 then withLimit sectionSize parseExportSection u
      else if sectionId = 10 then withLimit sectionSize parseCodeSection u
      else
        (Except.error (GoErr.msg ("reading of section with unknown id failed: " ++
          decStr sectionId)), u)

/-!
## Module decoding (parser.go)
-/

/-- The section loop of Go `Parser.Parse`, with structural fuel (one unit per
decoded section; a successfully decoded section consumes at least its id
byte, so `length + 1` fuel always suffices).  A bare `io.EOF` from
`parseSection` — possible only for the id-byte read — ends the loop
successfully; any other error is returned as is; a decoded section is
discarded (the Go source only prints it) and the loop continues. -/
def sectionLoopGo : Nat → List Nat → Except GoErr Unit × List Nat
  | 0, s => (Except.error (GoErr.msg "out of fuel"), s)
  | fuel + 1, s =>
    match parseSection s with
    | (Except.error e, t) =>
      if e = GoErr.eof then (Except.ok (), t) else (Except.error e, t)
    | (Except.ok _, t) => sectionLoopGo fuel t

/-- The section loop of Go `Parser.Parse`, run with enough fuel for the
stream at hand. -/
def sectionLoop (s : List Nat) : Except GoErr Unit × List Nat :=
  sectionLoopGo (s.length + 1) s

/-- `binary.Read` of a 4-byte big-endian `uint32` uses `io.ReadFull`
semantics: `io.EOF` when no byte is available, `io.ErrUnexpectedEOF` when
1–3 bytes are. -/
def shortReadErr (s : List Nat) : GoErr :=
  if s = [] then GoErr.eof else GoErr.unexpectedEof

/-- The magic-mismatch message of `Parser.Parse` (`%x` formatting). -/
def magicMismatchMsg (got : Nat) : String :=
  "magic did not match, expected [0x" ++ hexStr 0x0061736D ++ "] got, [0x" ++
    hexStr got ++ "]"

/-- The version-mismatch message of `Parser.Parse`; the Go source formats the
magic value, not the version, in the "got" slot. -/
def versionMismatchMsg (magic : Nat) : String :=
  "version did not match, expected [0x" ++ hexStr 0x01000000 ++ "] got, [0x" ++
    hexStr magic ++ "]"

/-- Go `Parser.Parse`, the module-decode entry point: a 4-byte big-endian
magic compared against `WASM_BINARY_MAGIC`, a 4-byte big-endian version
compared against `WASM_BINARY_VERSION`, then the section loop.  The function
returns only `error` — `nil` (here `Except.ok ()`) on success; each decoded
section is printed and discarded, and no module value exists in the source. -/
def Parse (s : List Nat) : Except GoErr Unit × List Nat :=
  match s with
  | b0 :: b1 :: b2 :: b3 :: t =>
    let magic := ((b0 * 256 + b1) * 256 + b2) * 256 + b3
    if magic = 0x0061736D then
      match t with
      | v0 :: v1 :: v2 :: v3 :: u =>
        let version := ((v0 * 256 + v1) * 256 + v2) * 256 + v3
        if version = 0x01000000 then sectionLoop u
        else (Except.error (GoErr.msg (versionMismatchMsg magic)), u)
      | _ => (Except.error (GoErr.wrap "reading version failed" (shortReadErr t)), [])
    else (Except.error (GoErr.msg (magicMismatchMsg magic)), t)
  | _ => (Except.error (GoErr.wrap "reading magic failed" (shortReadErr s)), [])

/-- The valid 8-byte module header: magic `00 61 73 6D`, version
`01 00 00 00`. -/
def wasmHeader : List Nat := [0x00, 0x61, 0x73, 0x6D, 0x01, 0x00, 0x00, 0x00]

/-!
## Specification-side helpers for the code-section locals claim
-/

/-- Specification-side reading of `k` locals runs — the `(count, value-type)`
pairs in stream order — without the map aggregation the source performs. -/
def localsSpecRuns : Nat → List Nat → Option (List (Nat × ValueType) × List Nat)
  | 0, s => some ([], s)
  | k + 1, s =>
    match ReadUint32 s with
    | (Except.ok n, t) =>
      match parseValueType t with
      | (Except.ok vt, u) =>
        match localsSpecRuns k u with
        | some (rs, v) => some ((n, vt) :: rs, v)
        | none => none
      | _ => none
    | _ => none


/-!
## Arithmetic facts about the LEB128 accumulator
-/

/-- Or-ing a value below `2 ^ n` with a value shifted left by `n` is plain
addition: the two operands occupy disjoint bit ranges. -/
theorem lor_shiftLeft_eq_add {a b n : Nat} (h : a < 2 ^ n) :
    a ||| b <<< n = a + b <<< n := by
  have hmod : (a ||| b <<< n) % 2 ^ n = a := by
    rw [← Nat.and_pow_two_sub_one_eq_mod]
    apply Nat.eq_of_testBit_eq
    intro i
    rw [Nat.testBit_and, Nat.testBit_lor, Nat.testBit_shiftLeft,
      Nat.testBit_two_pow_sub_one]
    by_cases hi : i < n
    · have hni : ¬ n ≤ i := by omega
      simp [hi, hni]
    · have ha : a.testBit i = false :=
        Nat.testBit_lt_two_pow (lt_of_lt_of_le h (Nat.pow_le_pow_right (by norm_num) (by omega)))
      simp [hi, ha]
  have hdiv : (a ||| b <<< n) / 2 ^ n = b := by
    rw [← Nat.shiftRight_eq_div_pow]
    apply Nat.eq_of_testBit_eq
    intro i
    rw [Nat.testBit_shiftRight, Nat.testBit_lor, Nat.testBit_shiftLeft]
    have ha : a.testBit (n + i) = false :=
      Nat.testBit_lt_two_pow (lt_of_lt_of_le h (Nat.pow_le_pow_right (by norm_num) (by omega)))
    have hni : n ≤ n + i := by omega
    simp [ha, hni]
  have hsplit := Nat.div_add_mod (a ||| b <<< n) (2 ^ n)
  rw [hdiv, hmod] at hsplit
  calc a ||| b <<< n = 2 ^ n * b + a := hsplit.symm
    _ = a + b * 2 ^ n := by ring
    _ = a + b <<< n := by rw [Nat.shiftLeft_eq]

/-- `b & 0b01111111` is `b % 128`. -/
theorem and127_eq_mod (b : Nat) : b &&& 127 = b % 128 := by
  have h := Nat.and_pow_two_sub_one_eq_mod b 7
  norm_num at h
  exact h

set_option maxRecDepth 4096 in
/-- For a byte, the Go continuation test `(b & 0b10000000) >> 7 == 0` holds
exactly when the high bit is clear, i.e. `b < 128`. -/
theorem highBitTest : ∀ b, b < 256 → (((b &&& 128) >>> 7 = 0) ↔ b < 128) := by
  decide

/-- One-step unfolding of `ulebLoop` at a cons cell. -/
theorem ulebLoop_cons (b : Nat) (t : List Nat) (k acc : Nat) :
    ulebLoop (b :: t) k acc =
      (if (b &&& 128) >>> 7 = 0 then
        (Except.ok (acc ||| ((b &&& 127) <<< (7 * k))), t)
      else ulebLoop t (k + 1) (acc ||| ((b &&& 127) <<< (7 * k)))) := rfl

/-- `isUlebEncoding` at two or more bytes: a continuation byte followed by an
encoding. -/
theorem isUleb_cons_cons (b c : Nat) (t : List Nat) :
    isUlebEncoding (b :: c :: t) =
      (decide (128 ≤ b ∧ b < 256) && isUlebEncoding (c :: t)) := rfl

/-- The LEB128 loop on a complete encoding followed by arbitrary further
bytes: it returns the accumulator plus the encoding's value at the current
shift, and leaves exactly the further bytes. -/
theorem ulebLoop_encoding : ∀ enc, isUlebEncoding enc = true →
    ∀ rest k acc, acc < 2 ^ (7 * k) →
    ulebLoop (enc ++ rest) k acc =
      (Except.ok (acc + 2 ^ (7 * k) * ulebValue enc), rest) := by
  intro enc
  induction enc with
  | nil => intro h; simp [isUlebEncoding] at h
  | cons b t ih =>
    intro h rest k acc hacc
    cases t with
    | nil =>
      have hb : b < 128 := by simpa [isUlebEncoding] using h
      have hcond : (b &&& 128) >>> 7 = 0 := (highBitTest b (by omega)).2 hb
      have hval : acc ||| (b &&& 127) <<< (7 * k) = acc + 2 ^ (7 * k) * (b % 128) := by
        rw [lor_shiftLeft_eq_add hacc, Nat.shiftLeft_eq, and127_eq_mod]; ring
      rw [List.cons_append, List.nil_append, ulebLoop_cons, if_pos hcond, hval]
      simp [ulebValue]
    | cons c t' =>
      have hcc := h
      rw [isUleb_cons_cons] at hcc
      simp only [Bool.and_eq_true, decide_eq_true_eq] at hcc
      obtain ⟨⟨hb1, hb2⟩, henc⟩ := hcc
      have hcond : ¬ ((b &&& 128) >>> 7 = 0) := by
        intro hc
        exact absurd ((highBitTest b hb2).1 hc) (by omega)
      have hsum : acc ||| (b &&& 127) <<< (7 * k) = acc + (b % 128) * 2 ^ (7 * k) := by
        rw [lor_shiftLeft_eq_add hacc, Nat.shiftLeft_eq, and127_eq_mod]
      have hpow : 2 ^ (7 * (k + 1)) = 2 ^ (7 * k) * 128 := by
        rw [show 7 * (k + 1) = 7 * k + 7 by ring, Nat.pow_add]
      have hacc' : acc + (b % 128) * 2 ^ (7 * k) < 2 ^ (7 * (k + 1)) := by
        have hb128 : b % 128 < 128 := Nat.mod_lt _ (by norm_num)
        have h1 : (b % 128) * 2 ^ (7 * k) ≤ 127 * 2 ^ (7 * k) :=
          Nat.mul_le_mul_right _ (by omega)
        have h2 : 2 ^ (7 * k) * 128 = 128 * 2 ^ (7 * k) := by ring
        omega
      rw [List.cons_append, ulebLoop_cons, if_neg hcond, hsum,
        ih henc rest (k + 1) _ hacc']
      have hv : ulebValue (b :: c :: t') = b % 128 + 128 * ulebValue (c :: t') := rfl
      rw [hv, hpow]
      ring_nf

/-- `ReadUleb128` on a complete encoding followed by arbitrary bytes returns
the encoding's value and exactly the remaining bytes. -/
theorem ReadUleb128_encoding (enc rest : List Nat) (h : isUlebEncoding enc = true) :
    ReadUleb128 (enc ++ rest) = (Except.ok (ulebValue enc), rest) := by
  have := ulebLoop_encoding enc h rest 0 0 (by norm_num)
  simpa [ReadUleb128] using this

/-- The LEB128 loop on a stream containing only continuation bytes runs out
of input and fails with the wrapped `io.EOF`, consuming everything. -/
theorem ulebLoop_allContinuation : ∀ s : List Nat, (∀ b ∈ s, 128 ≤ b ∧ b < 256) →
    ∀ k acc, ulebLoop s k acc =
      (Except.error (GoErr.wrap "reading uleb128 byte failed" GoErr.eof), []) := by
  intro s
  induction s with
  | nil => intro _ k acc; simp [ulebLoop]
  | cons b t ih =>
    intro h k acc
    have hb := h b (by simp)
    have hcond : ¬ ((b &&& 128) >>> 7 = 0) := by
      intro hc
      exact absurd ((highBitTest b hb.2).1 hc) (by omega)
    simp only [ulebLoop, if_neg hcond]
    exact ih (fun x hx => h x (by simp [hx])) (k + 1) _

/-!
## The minimal bit-width function
-/

/-- `bitLenGo` with sufficient fuel computes the minimal bit-width:
`bitLenGo f n ≤ k` iff `n < 2 ^ k`. -/
theorem bitLenGo_le_iff : ∀ f n, n ≤ f → ∀ k, (bitLenGo f n ≤ k ↔ n < 2 ^ k) := by
  intro f
  induction f with
  | zero =>
    intro n hn k
    have hn0 : n = 0 := by omega
    subst hn0
    simp [bitLenGo, Nat.two_pow_pos]
  | succ f ih =>
    intro n hn k
    match n with
    | 0 => simp [bitLenGo, Nat.two_pow_pos]
    | m + 1 =>
      have hdiv : (m + 1) / 2 ≤ f := by omega
      cases k with
      | zero =>
        simp only [bitLenGo, Nat.pow_zero]
        omega
      | succ k =>
        have hIH := ih ((m + 1) / 2) hdiv k
        simp only [bitLenGo]
        rw [Nat.pow_succ]
        omega

/-- `bitLen n ≤ k` iff `n < 2 ^ k`: `bitLen` is the minimal bit-width. -/
theorem bitLen_le_iff (n k : Nat) : bitLen n ≤ k ↔ n < 2 ^ k :=
  bitLenGo_le_iff n n (Nat.le_refl n) k

/-!
## Consumption bounds: no decoder ever grows the stream
-/

/-- One-step unfolding of `parseInstructionsGo` with positive fuel at a cons
cell. -/
theorem parseInstructionsGo_succ_cons (f b : Nat) (t : List Nat) :
    parseInstructionsGo (f + 1) (b :: t) =
      (if b = 0x0B then (Except.ok [], t)
      else
        match parseInstruction b t with
        | (Except.error _, u) => (Except.error (GoErr.msg (unknownOpcodeMsg b)), u)
        | (Except.ok i, u) =>
          match parseInstructionsGo f u with
          | (Except.ok l, v) => (Except.ok (i :: l), v)
          | (Except.error e, v) => (Except.error e, v)) := rfl

theorem ulebLoop_len : ∀ (s : List Nat) (k acc : Nat),
    (ulebLoop s k acc).2.length ≤ s.length := by
  intro s
  induction s with
  | nil => intro k acc; simp [ulebLoop]
  | cons b t ih =>
    intro k acc
    rw [ulebLoop_cons]
    by_cases hc : (b &&& 128) >>> 7 = 0
    · simp [hc]
    · rw [if_neg hc]
      exact le_trans (ih (k + 1) _) (by simp)

theorem ReadUleb128_len (s : List Nat) : (ReadUleb128 s).2.length ≤ s.length :=
  ulebLoop_len s 0 0

theorem ReadUint8_len (s : List Nat) : (ReadUint8 s).2.length ≤ s.length := by
  have h := ReadUleb128_len s
  unfold ReadUint8
  split
  next e t heq => rw [heq] at h; simpa using h
  next v t heq =>
    rw [heq] at h
    simp only at h
    split <;> simpa using h

theorem ReadUint32_len (s : List Nat) : (ReadUint32 s).2.length ≤ s.length := by
  have h := ReadUleb128_len s
  unfold ReadUint32
  split
  next e t heq => rw [heq] at h; simpa using h
  next v t heq =>
    rw [heq] at h
    simp only at h
    split <;> simpa using h

theorem parseName_len (s : List Nat) : (parseName s).2.length ≤ s.length := by
  have h := ReadUint32_len s
  unfold parseName
  split
  next e t heq => rw [heq] at h; simpa using h
  next size t heq =>
    rw [heq] at h
    simp only at h
    split <;> simp [List.length_drop] <;> omega

theorem parseValueType_len (s : List Nat) : (parseValueType s).2.length ≤ s.length := by
  unfold parseValueType
  repeat' split
  all_goals simp

theorem resultTypeLoop_len : ∀ (k : Nat) (s : List Nat),
    (resultTypeLoop k s).2.length ≤ s.length := by
  intro k
  induction k with
  | zero => intro s; simp [resultTypeLoop]
  | succ k ih =>
    intro s
    have h1 := parseValueType_len s
    simp only [resultTypeLoop]
    split
    next e t heq => rw [heq] at h1; simpa using h1
    next vt t heq =>
      rw [heq] at h1
      simp only at h1
      have h2 := ih t
      split
      next l u heq2 => rw [heq2] at h2; simp only at h2; simp; omega
      next e u heq2 => rw [heq2] at h2; simp only at h2; simp; omega

theorem parseResultType_len (s : List Nat) : (parseResultType s).2.length ≤ s.length := by
  have h := ReadUint32_len s
  unfold parseResultType
  split
  next e t heq => rw [heq] at h; simpa using h
  next size t heq =>
    rw [heq] at h
    simp only at h
    exact le_trans (resultTypeLoop_len size t) h

theorem parseFunctionType_len (s : List Nat) : (parseFunctionType s).2.length ≤ s.length := by
  unfold parseFunctionType
  split
  · simp
  next b t =>
    split
    · simp
    · have h1 := parseResultType_len t
      split
      next e u heq => rw [heq] at h1; simp only at h1; simp; omega
      next rt1 u heq =>
        rw [heq] at h1
        simp only at h1
        have h2 := parseResultType_len u
        split
        next e v heq2 => rw [heq2] at h2; simp only at h2; simp; omega
        next rt2 v heq2 => rw [heq2] at h2; simp only at h2; simp; omega

theorem parseLocalGet_len (s : List Nat) : (parseLocalGet s).2.length ≤ s.length := by
  have h := ReadUint32_len s
  unfold parseLocalGet
  split
  next e t heq => rw [heq] at h; simpa using h
  next x t heq => rw [heq] at h; simpa using h

theorem parseInstruction_len (b : Nat) (s : List Nat) :
    (parseInstruction b s).2.length ≤ s.length := by
  unfold parseInstruction
  split
  · exact parseLocalGet_len s
  · split <;> simp

theorem parseInstructionsGo_len : ∀ (f : Nat) (s : List Nat),
    (parseInstructionsGo f s).2.length ≤ s.length := by
  intro f
  induction f with
  | zero => intro s; simp [parseInstructionsGo]
  | succ f ih =>
    intro s
    cases s with
    | nil => simp [parseInstructionsGo]
    | cons b t =>
      rw [parseInstructionsGo_succ_cons]
      split
      · simp
      · have h1 := parseInstruction_len b t
        split
        next e u heq => rw [heq] at h1; simp only at h1; simp; omega
        next i u heq =>
          rw [heq] at h1
          simp only at h1
          have h2 := ih u
          split
          next l v heq2 => rw [heq2] at h2; simp only at h2; simp; omega
          next e v heq2 => rw [heq2] at h2; simp only at h2; simp; omega

theorem parseInstructions_len (s : List Nat) : (parseInstructions s).2.length ≤ s.length :=
  parseInstructionsGo_len (s.length + 1) s

theorem withLimit_len {α : Type} (n : Nat) (p : List Nat → Except GoErr α × List Nat)
    (hp : ∀ x, (p x).2.length ≤ x.length) (s : List Nat) :
    (withLimit n p s).2.length ≤ s.length := by
  unfold withLimit
  have h := hp (List.take n s)
  split
  next r leftover heq =>
    rw [heq] at h
    simp only at h
    simp only [List.length_append, List.length_drop]
    have ht : (List.take n s).length = min n s.length := List.length_take n s
    omega

theorem parseCustomSection_len (s : List Nat) : (parseCustomSection s).2.length ≤ s.length := by
  have h := parseName_len s
  unfold parseCustomSection
  split
  next e t heq => rw [heq] at h; simpa using h
  next name t heq => simp

theorem typeSectionLoop_len : ∀ (k : Nat) (s : List Nat),
    (typeSectionLoop k s).2.length ≤ s.length := by
  intro k
  induction k with
  | zero => intro s; simp [typeSectionLoop]
  | succ k ih =>
    intro s
    have h1 := parseFunctionType_len s
    simp only [typeSectionLoop]
    split
    next e t heq => rw [heq] at h1; simpa using h1
    next ft t heq =>
      rw [heq] at h1
      simp only at h1
      have h2 := ih t
      split
      next l u heq2 => rw [heq2] at h2; simp only at h2; simp; omega
      next e u heq2 => rw [heq2] at h2; simp only at h2; simp; omega

theorem parseTypeSection_len (s : List Nat) : (parseTypeSection s).2.length ≤ s.length := by
  have h := ReadUint32_len s
  unfold parseTypeSection
  split
  next e t heq => rw [heq] at h; simpa using h
  next numTypes t heq =>
    rw [heq] at h
    simp only at h
    have h2 := typeSectionLoop_len numTypes t
    split
    next l u heq2 => rw [heq2] at h2; simp only at h2; simp; omega
    next e u heq2 => rw [heq2] at h2; simp only at h2; simp; omega

theorem functionSectionLoop_len : ∀ (k : Nat) (s : List Nat),
    (functionSectionLoop k s).2.length ≤ s.length := by
  intro k
  induction k with
  | zero => intro s; simp [functionSectionLoop]
  | succ k ih =>
    intro s
    have h1 := ReadUint32_len s
    simp only [functionSectionLoop]
    split
    next e t heq => rw [heq] at h1; simpa using h1
    next idx t heq =>
      rw [heq] at h1
      simp only at h1
      have h2 := ih t
      split
      next l u heq2 => rw [heq2] at h2; simp only at h2; simp; omega
      next e u heq2 => rw [heq2] at h2; simp only at h2; simp; omega

theorem parseFunctionSection_len (s : List Nat) :
    (parseFunctionSection s).2.length ≤ s.length := by
  have h := ReadUint32_len s
  unfold parseFunctionSection
  split
  next e t heq => rw [heq] at h; simpa using h
  next numIndices t heq =>
    rw [heq] at h
    simp only at h
    have h2 := functionSectionLoop_len numIndices t
    split
    next l u heq2 => rw [heq2] at h2; simp only at h2; simp; omega
    next e u heq2 => rw [heq2] at h2; simp only at h2; simp; omega

theorem exportSectionLoop_len : ∀ (k : Nat) (s : List Nat),
    (exportSectionLoop k s).2.length ≤ s.length := by
  intro k
  induction k with
  | zero => intro s; simp [exportSectionLoop]
  | succ k ih =>
    intro s
    have h1 := parseName_len s
    simp only [exportSectionLoop]
    split
    next e t heq => rw [heq] at h1; simpa using h1
    next name t heq =>
      rw [heq] at h1
      simp only at h1
      split
      · simp
      next b u =>
        split
        · simp
        next b2 v =>
          simp only [List.length_cons] at h1
          have h2 := ih v
          split
          next l w heq2 => rw [heq2] at h2; simp only at h2; simp; omega
          next e w heq2 => rw [heq2] at h2; simp only at h2; simp; omega

theorem parseExportSection_len (s : List Nat) : (parseExportSection s).2.length ≤ s.length := by
  have h := ReadUint32_len s
  unfold parseExportSection
  split
  next e t heq => rw [heq] at h; simpa using h
  next numExports t heq =>
    rw [heq] at h
    simp only at h
    have h2 := exportSectionLoop_len numExports t
    split
    next l u heq2 => rw [heq2] at h2; simp only at h2; simp; omega
    next e u heq2 => rw [heq2] at h2; simp only at h2; simp; omega

theorem codeLocalsLoop_len : ∀ (k : Nat) (locals : List (ValueType × Nat)) (s : List Nat),
    (codeLocalsLoop k locals s).2.length ≤ s.length := by
  intro k
  induction k with
  | zero => intro locals s; simp [codeLocalsLoop]
  | succ k ih =>
    intro locals s
    have h1 := ReadUint32_len s
    simp only [codeLocalsLoop]
    split
    next e t heq => rw [heq] at h1; simpa using h1
    next n t heq =>
      rw [heq] at h1
      simp only at h1
      have h2 := parseValueType_len t
      split
      next e u heq2 => rw [heq2] at h2; simp only at h2; simp; omega
      next vt u heq2 =>
        rw [heq2] at h2
        simp only at h2
        exact le_trans (ih _ u) (by omega)

theorem codeEntryBody_len (s : List Nat) : (codeEntryBody s).2.length ≤ s.length := by
  have h := ReadUint32_len s
  unfold codeEntryBody
  split
  next e t heq => rw [heq] at h; simpa using h
  next numLocals t heq =>
    rw [heq] at h
    simp only at h
    have h2 := codeLocalsLoop_len numLocals [] t
    split
    next e u heq2 => rw [heq2] at h2; simp only at h2; simp; omega
    next locals u heq2 =>
      rw [heq2] at h2
      simp only at h2
      have h3 := parseInstructions_len u
      split
      next e v heq3 => rw [heq3] at h3; simp only at h3; simp; omega
      next instrs v heq3 => rw [heq3] at h3; simp only at h3; simp; omega

theorem codeSectionLoop_len : ∀ (k : Nat) (s : List Nat),
    (codeSectionLoop k s).2.length ≤ s.length := by
  intro k
  induction k with
  | zero => intro s; simp [codeSectionLoop]
  | succ k ih =>
    intro s
    have h1 := ReadUint32_len s
    simp only [codeSectionLoop]
    split
    next e t heq => rw [heq] at h1; simpa using h1
    next codeSize t heq =>
      rw [heq] at h1
      simp only at h1
      have h2 := withLimit_len codeSize codeEntryBody codeEntryBody_len t
      split
      next e u heq2 => rw [heq2] at h2; simp only at h2; simp; omega
      next fc u heq2 =>
        rw [heq2] at h2
        simp only at h2
        have h3 := ih u
        split
        next l v heq3 => rw [heq3] at h3; simp only at h3; simp; omega
        next e v heq3 => rw [heq3] at h3; simp only at h3; simp; omega

theorem parseCodeSection_len (s : List Nat) : (parseCodeSection s).2.length ≤ s.length := by
  have h := ReadUint32_len s
  unfold parseCodeSection
  split
  next e t heq => rw [heq] at h; simpa using h
  next numEntries t heq =>
    rw [heq] at h
    simp only at h
    have h2 := codeSectionLoop_len numEntries t
    split
    next l u heq2 => rw [heq2] at h2; simp only at h2; simp; omega
    next e u heq2 => rw [heq2] at h2; simp only at h2; simp; omega

theorem parseSection_len (s : List Nat) : (parseSection s).2.length ≤ s.length := by
  unfold parseSection
  split
  · simp
  next sectionId t =>
    have h := ReadUint32_len t
    split
    next e u heq => rw [heq] at h; simp only at h; simp; omega
    next sectionSize u heq =>
      rw [heq] at h
      simp only at h
      have hc := withLimit_len sectionSize parseCustomSection parseCustomSection_len u
      have ht := withLimit_len sectionSize parseTypeSection parseTypeSection_len u
      have hf := withLimit_len sectionSize parseFunctionSection parseFunctionSection_len u
      have he := withLimit_len sectionSize parseExportSection parseExportSection_len u
      have hk := withLimit_len sectionSize parseCodeSection parseCodeSection_len u
      split
      · simp only [List.length_cons]; omega
      · split
        · simp only [List.length_cons]; omega
        · split
          · simp only [List.length_cons]; omega
          · split
            · simp only [List.length_cons]; omega
            · split
              · simp only [List.length_cons]; omega
              · simp only [List.length_cons]; omega

/-- A successfully decoded section always consumes at least its id byte. -/
theorem parseSection_ok_len {s t : List Nat} {sec : Section}
    (h : parseSection s = (Except.ok sec, t)) : t.length < s.length := by
  unfold parseSection at h
  split at h
  · simp at h
  next sectionId u =>
    split at h
    · simp at h
    next sectionSize v heq =>
      have hv := ReadUint32_len u
      rw [heq] at hv
      simp only at hv
      have hc := withLimit_len sectionSize parseCustomSection parseCustomSection_len v
      have ht := withLimit_len sectionSize parseTypeSection parseTypeSection_len v
      have hf := withLimit_len sectionSize parseFunctionSection parseFunctionSection_len v
      have he := withLimit_len sectionSize parseExportSection parseExportSection_len v
      have hk := withLimit_len sectionSize parseCodeSection parseCodeSection_len v
      simp only [List.length_cons]
      split at h
      · rw [h] at hc; simp only at hc; omega
      · split at h
        · rw [h] at ht; simp only at ht; omega
        · split at h
          · rw [h] at hf; simp only at hf; omega
          · split at h
            · rw [h] at he; simp only at he; omega
            · split at h
              · rw [h] at hk; simp only at hk; omega
              · simp at h

/-!
## No decoder below the section level ever fails with a bare `io.EOF`

Every failure inside a section, or while reading a section size, is built
with `fmt.Errorf` (wrapped or plain), so the `err == io.EOF` identity test in
`Parser.Parse` can only fire for end-of-input at a section's id byte.
-/

theorem ulebLoop_ne_eof : ∀ (s : List Nat) (k acc : Nat),
    (ulebLoop s k acc).1 ≠ Except.error GoErr.eof := by
  intro s
  induction s with
  | nil => intro k acc; simp [ulebLoop]
  | cons b t ih =>
    intro k acc
    rw [ulebLoop_cons]
    split
    · simp
    · exact ih (k + 1) _

theorem ReadUleb128_ne_eof (s : List Nat) : (ReadUleb128 s).1 ≠ Except.error GoErr.eof :=
  ulebLoop_ne_eof s 0 0

theorem ReadUint32_ne_eof (s : List Nat) : (ReadUint32 s).1 ≠ Except.error GoErr.eof := by
  unfold ReadUint32
  split
  next e t heq => simp
  next v t heq => split <;> simp

theorem parseName_ne_eof (s : List Nat) : (parseName s).1 ≠ Except.error GoErr.eof := by
  unfold parseName
  split
  next e t heq => simp
  next size t heq => split <;> simp

theorem parseValueType_ne_eof (s : List Nat) : (parseValueType s).1 ≠ Except.error GoErr.eof := by
  unfold parseValueType
  repeat' split
  all_goals simp

theorem resultTypeLoop_ne_eof : ∀ (k : Nat) (s : List Nat),
    (resultTypeLoop k s).1 ≠ Except.error GoErr.eof := by
  intro k
  induction k with
  | zero => intro s; simp [resultTypeLoop]
  | succ k ih =>
    intro s
    simp only [resultTypeLoop]
    split
    next e t heq => simp
    next vt t heq =>
      have h2 := ih t
      split
      next l u heq2 => simp
      next e u heq2 => rw [heq2] at h2; simpa using h2

theorem parseResultType_ne_eof (s : List Nat) :
    (parseResultType s).1 ≠ Except.error GoErr.eof := by
  unfold parseResultType
  split
  next e t heq => simp
  next size t heq => exact resultTypeLoop_ne_eof size t

theorem parseFunctionType_ne_eof (s : List Nat) :
    (parseFunctionType s).1 ≠ Except.error GoErr.eof := by
  unfold parseFunctionType
  repeat' split
  all_goals simp

theorem parseInstructionsGo_ne_eof : ∀ (f : Nat) (s : List Nat),
    (parseInstructionsGo f s).1 ≠ Except.error GoErr.eof := by
  intro f
  induction f with
  | zero => intro s; simp [parseInstructionsGo]
  | succ f ih =>
    intro s
    cases s with
    | nil => simp [parseInstructionsGo]
    | cons b t =>
      rw [parseInstructionsGo_succ_cons]
      split
      · simp
      · split
        next e u heq => simp
        next i u heq =>
          have h2 := ih u
          split
          next l v heq2 => simp
          next e v heq2 => rw [heq2] at h2; simpa using h2

theorem parseInstructions_ne_eof (s : List Nat) :
    (parseInstructions s).1 ≠ Except.error GoErr.eof :=
  parseInstructionsGo_ne_eof (s.length + 1) s

theorem withLimit_ne_eof {α : Type} (n : Nat) (p : List Nat → Except GoErr α × List Nat)
    (hp : ∀ x, (p x).1 ≠ Except.error GoErr.eof) (s : List Nat) :
    (withLimit n p s).1 ≠ Except.error GoErr.eof := by
  unfold withLimit
  have h := hp (List.take n s)
  split
  next r leftover heq =>
    rw [heq] at h
    simpa using h

theorem parseCustomSection_ne_eof (s : List Nat) :
    (parseCustomSection s).1 ≠ Except.error GoErr.eof := by
  unfold parseCustomSection
  split <;> simp

theorem typeSectionLoop_ne_eof : ∀ (k : Nat) (s : List Nat),
    (typeSectionLoop k s).1 ≠ Except.error GoErr.eof := by
  intro k
  induction k with
  | zero => intro s; simp [typeSectionLoop]
  | succ k ih =>
    intro s
    simp only [typeSectionLoop]
    split
    next e t heq => simp
    next ft t heq =>
      have h2 := ih t
      split
      next l u heq2 => simp
      next e u heq2 => rw [heq2] at h2; simpa using h2

theorem parseTypeSection_ne_eof (s : List Nat) :
    (parseTypeSection s).1 ≠ Except.error GoErr.eof := by
  unfold parseTypeSection
  split
  next e t heq => simp
  next numTypes t heq =>
    have h2 := typeSectionLoop_ne_eof numTypes t
    split
    next l u heq2 => simp
    next e u heq2 => rw [heq2] at h2; simpa using h2

theorem functionSectionLoop_ne_eof : ∀ (k : Nat) (s : List Nat),
    (functionSectionLoop k s).1 ≠ Except.error GoErr.eof := by
  intro k
  induction k with
  | zero => intro s; simp [functionSectionLoop]
  | succ k ih =>
    intro s
    simp only [functionSectionLoop]
    split
    next e t heq => simp
    next idx t heq =>
      have h2 := ih t
      split
      next l u heq2 => simp
      next e u heq2 => rw [heq2] at h2; simpa using h2

theorem parseFunctionSection_ne_eof (s : List Nat) :
    (parseFunctionSection s).1 ≠ Except.error GoErr.eof := by
  unfold parseFunctionSection
  split
  next e t heq => simp
  next numIndices t heq =>
    have h2 := functionSectionLoop_ne_eof numIndices t
    split
    next l u heq2 => simp
    next e u heq2 => rw [heq2] at h2; simpa using h2

theorem exportSectionLoop_ne_eof : ∀ (k : Nat) (s : List Nat),
    (exportSectionLoop k s).1 ≠ Except.error GoErr.eof := by
  intro k
  induction k with
  | zero => intro s; simp [exportSectionLoop]
  | succ k ih =>
    intro s
    simp only [exportSectionLoop]
    split
    next e t heq => simp
    next name t heq =>
      split
      · simp
      next b u =>
        split
        · simp
        next b2 v =>
          have h2 := ih v
          split
          next l w heq2 => simp
          next e w heq2 => rw [heq2] at h2; simpa using h2

theorem parseExportSection_ne_eof (s : List Nat) :
    (parseExportSection s).1 ≠ Except.error GoErr.eof := by
  unfold parseExportSection
  split
  next e t heq => simp
  next numExports t heq =>
    have h2 := exportSectionLoop_ne_eof numExports t
    split
    next l u heq2 => simp
    next e u heq2 => rw [heq2] at h2; simpa using h2

theorem codeLocalsLoop_ne_eof : ∀ (k : Nat) (locals : List (ValueType × Nat)) (s : List Nat),
    (codeLocalsLoop k locals s).1 ≠ Except.error GoErr.eof := by
  intro k
  induction k with
  | zero => intro locals s; simp [codeLocalsLoop]
  | succ k ih =>
    intro locals s
    simp only [codeLocalsLoop]
    split
    next e t heq => simp
    next n t heq =>
      split
      next e u heq2 => simp
      next vt u heq2 => exact ih _ u

theorem codeEntryBody_ne_eof (s : List Nat) :
    (codeEntryBody s).1 ≠ Except.error GoErr.eof := by
  unfold codeEntryBody
  split
  next e t heq => simp
  next numLocals t heq =>
    have h2 := codeLocalsLoop_ne_eof numLocals [] t
    split
    next e u heq2 => rw [heq2] at h2; simpa using h2
    next locals u heq2 =>
      split
      next e v heq3 => simp
      next instrs v heq3 => simp

theorem codeSectionLoop_ne_eof : ∀ (k : Nat) (s : List Nat),
    (codeSectionLoop k s).1 ≠ Except.error GoErr.eof := by
  intro k
  induction k with
  | zero => intro s; simp [codeSectionLoop]
  | succ k ih =>
    intro s
    simp only [codeSectionLoop]
    split
    next e t heq => simp
    next codeSize t heq =>
      have h2 := withLimit_ne_eof codeSize codeEntryBody codeEntryBody_ne_eof t
      split
      next e u heq2 => rw [heq2] at h2; simpa using h2
      next fc u heq2 =>
        have h3 := ih u
        split
        next l v heq3 => simp
        next e v heq3 => rw [heq3] at h3; simpa using h3

theorem parseCodeSection_ne_eof (s : List Nat) :
    (parseCodeSection s).1 ≠ Except.error GoErr.eof := by
  unfold parseCodeSection
  split
  next e t heq => simp
  next numEntries t heq =>
    have h2 := codeSectionLoop_ne_eof numEntries t
    split
    next l u heq2 => simp
    next e u heq2 => rw [heq2] at h2; simpa using h2

/-- On a nonempty stream — the id byte is readable — every `parseSection`
failure carries a wrapped or plain message, never the bare `io.EOF`. -/
theorem parseSection_cons_ne_eof (b : Nat) (t : List Nat) :
    (parseSection (b :: t)).1 ≠ Except.error GoErr.eof := by
  unfold parseSection
  split
  next heq => exact absurd heq (by simp)
  next sectionId u heq =>
    split
    next e v heq2 => simp
    next sectionSize v heq2 =>
      split
      · exact withLimit_ne_eof sectionSize parseCustomSection parseCustomSection_ne_eof v
      · split
        · exact withLimit_ne_eof sectionSize parseTypeSection parseTypeSection_ne_eof v
        · split
          · exact withLimit_ne_eof sectionSize parseFunctionSection parseFunctionSection_ne_eof v
          · split
            · exact withLimit_ne_eof sectionSize parseExportSection parseExportSection_ne_eof v
            · split
              · exact withLimit_ne_eof sectionSize parseCodeSection parseCodeSection_ne_eof v
              · simp

/-!
## Fuel stability: the fuel supplies used by the source loops are sufficient
-/

/-- One-step unfolding of `sectionLoopGo` with positive fuel. -/
theorem sectionLoopGo_succ (f : Nat) (s : List Nat) :
    sectionLoopGo (f + 1) s =
      (match parseSection s with
      | (Except.error e, t) =>
        if e = GoErr.eof then (Except.ok (), t) else (Except.error e, t)
      | (Except.ok _, t) => sectionLoopGo f t) := rfl

theorem parseInstructionsGo_fuel : ∀ (f g : Nat) (s : List Nat),
    s.length < f → s.length < g →
    parseInstructionsGo f s = parseInstructionsGo g s := by
  intro f
  induction f with
  | zero => intro g s hf; omega
  | succ f ih =>
    intro g s hf hg
    cases g with
    | zero => omega
    | succ g =>
      cases s with
      | nil => rfl
      | cons b t =>
        rw [parseInstructionsGo_succ_cons, parseInstructionsGo_succ_cons]
        split
        · rfl
        · have hlen := parseInstruction_len b t
          split
          next e u heq => rfl
          next i u heq =>
            rw [heq] at hlen
            simp only at hlen
            simp only [List.length_cons] at hf hg
            rw [ih g u (by omega) (by omega)]

theorem sectionLoopGo_fuel : ∀ (f g : Nat) (s : List Nat),
    s.length < f → s.length < g →
    sectionLoopGo f s = sectionLoopGo g s := by
  intro f
  induction f with
  | zero => intro g s hf; omega
  | succ f ih =>
    intro g s hf hg
    cases g with
    | zero => omega
    | succ g =>
      rw [sectionLoopGo_succ, sectionLoopGo_succ]
      split
      next e t heq => rfl
      next sec t heq =>
        have hlt := parseSection_ok_len heq
        rw [ih g t (by omega) (by omega)]

/-- The stable unfolding of `parseInstructions` at a cons cell: decode one
instruction, then the rest of the sequence. -/
theorem parseInstructions_cons (b : Nat) (t : List Nat) :
    parseInstructions (b :: t) =
      (if b = 0x0B then (Except.ok [], t)
      else
        match parseInstruction b t with
        | (Except.error _, u) => (Except.error (GoErr.msg (unknownOpcodeMsg b)), u)
        | (Except.ok i, u) =>
          match parseInstructions u with
          | (Except.ok l, v) => (Except.ok (i :: l), v)
          | (Except.error e, v) => (Except.error e, v)) := by
  unfold parseInstructions
  rw [show (b :: t).length + 1 = t.length + 1 + 1 from by simp]
  rw [parseInstructionsGo_succ_cons]
  split
  · rfl
  · have hlen := parseInstruction_len b t
    split
    next e u heq => rfl
    next i u heq =>
      rw [heq] at hlen
      simp only at hlen
      rw [parseInstructionsGo_fuel (t.length + 1) (u.length + 1) u (by omega) (by omega)]

/-- The stable unfolding of `sectionLoop`: decode one section; a bare
`io.EOF` ends the loop successfully, any other error is returned, and after
a decoded section the loop continues. -/
theorem sectionLoop_unfold (s : List Nat) :
    sectionLoop s =
      (match parseSection s with
      | (Except.error e, t) =>
        if e = GoErr.eof then (Except.ok (), t) else (Except.error e, t)
      | (Except.ok _, t) => sectionLoop t) := by
  unfold sectionLoop
  rw [sectionLoopGo_succ]
  split
  next e t heq => rfl
  next sec t heq =>
    have hlt := parseSection_ok_len heq
    exact sectionLoopGo_fuel s.length (t.length + 1) t (by omega) (by omega)

/-!
## The locals map: one fresh-keyed entry per declared run
-/

/-- The locals loop of `parseCodeSection` turns the declared
`(count, value-type)` runs into the map entries one-for-one: each run's
fresh pointer key receives that run's count (`0 + n` as `uint32`), appended
after the entries already present.  Counts are never combined across runs,
whatever value types the runs declare. -/
theorem codeLocalsLoop_runs :
    ∀ (k : Nat) (s : List Nat) (rs : List (Nat × ValueType)) (s' : List Nat)
      (locals : List (ValueType × Nat)),
    localsSpecRuns k s = some (rs, s') →
    codeLocalsLoop k locals s =
      (Except.ok (locals ++ rs.map (fun p => (p.2, (0 + p.1) % 4294967296))), s') := by
  intro k
  induction k with
  | zero =>
    intro s rs s' locals h
    simp only [localsSpecRuns, Option.some.injEq, Prod.ext_iff] at h
    obtain ⟨h1, h2⟩ := h
    subst h1
    subst h2
    simp [codeLocalsLoop]
  | succ k ih =>
    intro s rs s' locals h
    simp only [localsSpecRuns] at h
    split at h
    · rename_i n t heqA
      split at h
      · rename_i vt u heqB
        split at h
        · rename_i rs' v heqC
          simp only [Option.some.injEq, Prod.ext_iff] at h
          obtain ⟨hrs, hs'⟩ := h
          subst hrs
          subst hs'
          simp only [codeLocalsLoop]
          split
          · rename_i e t2 heqA2
            rw [heqA2] at heqA
            simp at heqA
          · rename_i n2 t2 heqA2
            rw [heqA2] at heqA
            simp only [Prod.mk.injEq, Except.ok.injEq] at heqA
            obtain ⟨hn, ht⟩ := heqA
            subst hn
            subst ht
            split
            · rename_i e u2 heqB2
              rw [heqB2] at heqB
              simp at heqB
            · rename_i vt2 u2 heqB2
              rw [heqB2] at heqB
              simp only [Prod.mk.injEq, Except.ok.injEq] at heqB
              obtain ⟨hvt, hu⟩ := heqB
              subst hvt
              subst hu
              rw [ih _ _ _ _ heqC]
              simp [insertFreshLocal]
        · simp at h
      · simp at h
    · simp at h

/-!
## Claim theorems
-/

/-- Claim C1: the spec says the module-decode entry point returns either the
assembled Module or a decode error, and that a header-only input yields a
Module with an empty section sequence.  The source's `Parser.Parse` returns
only `error` — success is `nil`, modelled as `Except.ok ()` — and discards
every decoded section after printing it; no Module value exists anywhere in
the code.  This theorem evaluates the embedded `Parse` at the claim's
failing input (the valid 8-byte header with zero sections): it succeeds,
consuming the whole stream, but produces no module. -/
theorem claim1_parse_header_only_returns_unit :
    Parse [0x00, 0x61, 0x73, 0x6D, 0x01, 0x00, 0x00, 0x00] = (Except.ok (), []) := rfl

/-- Claim C2: `ReadUleb128` decodes every valid unsigned LEB128 encoding —
of arbitrary width — to exactly its value, consuming exactly the encoding's
bytes and leaving the rest of the stream untouched; and when end-of-input
arrives before a terminating byte (every available byte is a continuation
byte), it fails with the wrapped `io.EOF` and returns no partial value. -/
theorem claim2_ReadUleb128_decodes_exactly :
    (∀ enc rest, isUlebEncoding enc = true →
      ReadUleb128 (enc ++ rest) = (Except.ok (ulebValue enc), rest)) ∧
    (∀ s : List Nat, (∀ b ∈ s, 128 ≤ b ∧ b < 256) →
      ReadUleb128 s =
        (Except.error (GoErr.wrap "reading uleb128 byte failed" GoErr.eof), [])) :=
  ⟨fun enc rest h => ReadUleb128_encoding enc rest h,
   fun s h => ulebLoop_allContinuation s h 0 0⟩

/-- Witness for C2 at the spec's own vectors: the three-byte encoding of
624485 decodes exactly and leaves the trailing byte; the 18-byte vector
(value far beyond 64 bits) decodes exactly with nothing remaining; a lone
continuation byte fails with the wrapped `io.EOF`. -/
theorem claim2_witness :
    ReadUleb128 [0xE5, 0x8E, 0x26, 0x99] = (Except.ok 624485, [0x99]) ∧
    ReadUleb128 ([0xEF, 0x9B, 0xAF, 0x85, 0x89, 0xCF, 0x95, 0x9A, 0x92, 0xDE,
        0xB7, 0xDE, 0x8A, 0x92, 0x9E, 0xAB, 0xB4, 0x24] ++ []) =
      (Except.ok 24197857200151252728969465429440056815, []) ∧
    ReadUleb128 [0x80] =
      (Except.error (GoErr.wrap "reading uleb128 byte failed" GoErr.eof), []) := by
  refine ⟨?_, ?_, ?_⟩
  · have h := claim2_ReadUleb128_decodes_exactly.1 [0xE5, 0x8E, 0x26] [0x99] (by decide)
    rw [show ([0xE5, 0x8E, 0x26] ++ [0x99] : List Nat) = [0xE5, 0x8E, 0x26, 0x99] from rfl] at h
    rw [h]
    decide
  · have h := claim2_ReadUleb128_decodes_exactly.1
      [0xEF, 0x9B, 0xAF, 0x85, 0x89, 0xCF, 0x95, 0x9A, 0x92, 0xDE,
        0xB7, 0xDE, 0x8A, 0x92, 0x9E, 0xAB, 0xB4, 0x24] [] (by decide)
    rw [h]
    decide
  · exact claim2_ReadUleb128_decodes_exactly.2 [0x80] (by decide)

/-- Claim C3: the claim (and the spec) say that counts for a value type
declared in several `(count, value-type)` runs accumulate into one locals
entry holding their sum.  In the source the map is `map[ValueType]uint32`
and each key is the interface value `parseValueType` returns — a pointer to
a freshly allocated struct, compared by identity — so every iteration's
`locals[valueType] += n` inserts a brand-new entry with count `0 + n`:
counts are never accumulated, and a type declared twice gets two entries.
First conjunct: in general, the decoded locals map is exactly the declared
runs, one entry per run with that run's own count.  Second conjunct: the
code evaluated at the failing input — one code entry declaring i32 locals
twice, with counts 1 and 2 — yields two separate i32 entries, not one entry
with the sum 3. -/
theorem claim3_locals_one_entry_per_run :
    (∀ (k : Nat) (s : List Nat) (rs : List (Nat × ValueType)) (s' : List Nat),
      localsSpecRuns k s = some (rs, s') →
      codeLocalsLoop k [] s =
        (Except.ok (rs.map (fun p => (p.2, (0 + p.1) % 4294967296))), s')) ∧
    parseCodeSection [0x01, 0x06, 0x02, 0x01, 0x7F, 0x02, 0x7F, 0x0B] =
      (Except.ok (Section.codeS
        [⟨[(ValueType.num 0x7F "i32", 1), (ValueType.num 0x7F "i32", 2)], []⟩]), []) := by
  constructor
  · intro k s rs s' h
    simpa using codeLocalsLoop_runs k s rs s' [] h
  · decide

/-- Witness for C3: runs `(1, i32)` and `(2, i32)` decode to the two map
entries `(i32, 1)` and `(i32, 2)`. -/
theorem claim3_witness :
    codeLocalsLoop 2 [] [0x01, 0x7F, 0x02, 0x7F, 0x99] =
      (Except.ok [(ValueType.num 0x7F "i32", 1), (ValueType.num 0x7F "i32", 2)], [0x99]) := by
  have h := claim3_locals_one_entry_per_run.1 2 [0x01, 0x7F, 0x02, 0x7F, 0x99]
    [(1, ValueType.num 0x7F "i32"), (2, ValueType.num 0x7F "i32")] [0x99] (by decide)
  rw [h]
  decide

/-- Claim C4: the claim says the export-description kind is selected by the
tag byte read right after the name, the index decoded after it is carried in
the description, and a tag outside 0x00–0x03 is a decode failure.  The Go
source reads the index byte into the same variable as the tag (`&b` instead
of `&x`), so the kind is chosen by the **index** byte, the carried index is
always the never-assigned `x = 0`, and a byte with no matching case yields a
`nil` description with no error.  Evaluations at the failing inputs: an
export with tag `0x01` (table) and index byte `0x00` decodes as a
**function** export with index 0; an export with tag `0xFF` and index byte
`0x07` is silently accepted with no description. -/
theorem claim4_export_tag_bug :
    parseExportSection [0x01, 0x00, 0x01, 0x00] =
      (Except.ok (Section.exportS [⟨[], some (ExportDescription.func 0)⟩]), []) ∧
    parseExportSection [0x01, 0x00, 0xFF, 0x07] =
      (Except.ok (Section.exportS [⟨[], none⟩]), []) := by
  refine ⟨by decide, by decide⟩

/-- Claim C6: the narrowing readers decode the full LEB128 value and fail
with an overflow error exactly when the value's minimal bit-width exceeds 8
(for `ReadUint8`) or 32 (for `ReadUint32`) — that is, when the value reaches
`2 ^ 8` (resp. `2 ^ 32`); a value that fits, however many encoding bytes it
used, is returned exactly, with the stream positioned after the encoding. -/
theorem claim6_narrowing_readers :
    ∀ enc rest, isUlebEncoding enc = true →
    ((2 ^ 8 ≤ ulebValue enc →
      ReadUint8 (enc ++ rest) =
        (Except.error (GoErr.msg ("uleb128 is too large for an uint8: " ++
          decStr (ulebValue enc))), rest)) ∧
     (ulebValue enc < 2 ^ 8 →
      ReadUint8 (enc ++ rest) = (Except.ok (ulebValue enc), rest)) ∧
     (2 ^ 32 ≤ ulebValue enc →
      ReadUint32 (enc ++ rest) =
        (Except.error (GoErr.msg ("uleb128 is too large for an uint8: " ++
          decStr (ulebValue enc))), rest)) ∧
     (ulebValue enc < 2 ^ 32 →
      ReadUint32 (enc ++ rest) = (Except.ok (ulebValue enc), rest))) := by
  intro enc rest h
  have h8 := bitLen_le_iff (ulebValue enc) 8
  have h32 := bitLen_le_iff (ulebValue enc) 32
  refine ⟨?_, ?_, ?_, ?_⟩
  · intro hv
    have hgt : bitLen (ulebValue enc) > 8 := by omega
    unfold ReadUint8
    rw [ReadUleb128_encoding enc rest h]
    simp [hgt]
  · intro hv
    have hle : ¬ (bitLen (ulebValue enc) > 8) := by omega
    unfold ReadUint8
    rw [ReadUleb128_encoding enc rest h]
    simp [hle]
  · intro hv
    have hgt : bitLen (ulebValue enc) > 32 := by omega
    unfold ReadUint32
    rw [ReadUleb128_encoding enc rest h]
    simp [hgt]
  · intro hv
    have hle : ¬ (bitLen (ulebValue enc) > 32) := by omega
    unfold ReadUint32
    rw [ReadUleb128_encoding enc rest h]
    simp [hle]

/-- Witness for C6: 255 (exactly 8 bits, padded two-byte encoding `FF 01`)
passes the 8-bit reader and is returned exactly; 256 (`80 02`) overflows it;
`2 ^ 32` (`80 80 80 80 10`) overflows the 32-bit reader. -/
theorem claim6_witness :
    ReadUint8 [0xFF, 0x01, 0x42] = (Except.ok 255, [0x42]) ∧
    ReadUint8 [0x80, 0x02, 0x42] =
      (Except.error (GoErr.msg ("uleb128 is too large for an uint8: " ++ decStr 256)), [0x42]) ∧
    ReadUint32 [0x80, 0x80, 0x80, 0x80, 0x10, 0x55] =
      (Except.error (GoErr.msg ("uleb128 is too large for an uint8: " ++
        decStr 4294967296)), [0x55]) := by
  refine ⟨?_, ?_, ?_⟩
  · have h := (claim6_narrowing_readers [0xFF, 0x01] [0x42] (by decide)).2.1 (by decide)
    rw [show ([0xFF, 0x01] ++ [0x42] : List Nat) = [0xFF, 0x01, 0x42] from rfl] at h
    rw [h]
    decide
  · have h := (claim6_narrowing_readers [0x80, 0x02] [0x42] (by decide)).1 (by decide)
    rw [show ([0x80, 0x02] ++ [0x42] : List Nat) = [0x80, 0x02, 0x42] from rfl] at h
    rw [h]
    decide
  · have h := (claim6_narrowing_readers [0x80, 0x80, 0x80, 0x80, 0x10] [0x55]
      (by decide)).2.2.1 (by decide)
    rw [show ([0x80, 0x80, 0x80, 0x80, 0x10] ++ [0x55] : List Nat) =
      [0x80, 0x80, 0x80, 0x80, 0x10, 0x55] from rfl] at h
    rw [h]
    decide

/-- Claim C7: the section loop of the module decoder terminates successfully
exactly when end-of-input occurs at the position where the next section's id
byte would be read (the bare `io.EOF` from `parseSection` on an empty
stream); any `parseSection` failure on a nonempty stream — including
end-of-input while reading the section size or inside a section's content —
is never the bare `io.EOF` and propagates out of the loop as that error; and
`Parser.Parse` runs exactly this loop after a valid header. -/
theorem claim7_section_loop_terminal_condition :
    sectionLoop [] = (Except.ok (), []) ∧
    (∀ b t e s', parseSection (b :: t) = (Except.error e, s') →
      e ≠ GoErr.eof ∧ sectionLoop (b :: t) = (Except.error e, s')) ∧
    (∀ s, Parse (wasmHeader ++ s) = sectionLoop s) := by
  refine ⟨rfl, ?_, fun s => rfl⟩
  intro b t e s' h
  have hne := parseSection_cons_ne_eof b t
  rw [h] at hne
  simp only at hne
  have he : e ≠ GoErr.eof := fun hc => hne (by rw [hc])
  refine ⟨he, ?_⟩
  rw [sectionLoop_unfold, h]
  simp [he]

/-- Witness for C7: a lone id byte (end-of-input while reading the section
size) fails with a wrapped error — not the bare `io.EOF` — and the loop
returns that error instead of succeeding. -/
theorem claim7_witness :
    (GoErr.wrap "reading section size failed" (GoErr.wrap "reading uleb128 for uint8 failed"
        (GoErr.wrap "reading uleb128 byte failed" GoErr.eof))) ≠ GoErr.eof ∧
    sectionLoop [0x00] =
      (Except.error (GoErr.wrap "reading section size failed"
        (GoErr.wrap "reading uleb128 for uint8 failed"
          (GoErr.wrap "reading uleb128 byte failed" GoErr.eof))), []) :=
  claim7_section_loop_terminal_condition.2.1 0x00 [] _ [] (by decide)

/-- Claim C8: instruction-sequence decoding returns exactly the instructions
decoded before the first terminator byte `0x0B` at an opcode position, which
is consumed but never included; end-of-input at an opcode position fails
with a wrapped error; a failing instruction decode (unknown opcode) fails
the sequence with no partial result; and such a failure inside a function
body fails the whole module decode (evaluated on a complete module whose
body contains the unknown opcode `0xFF`). -/
theorem claim8_instruction_sequence :
    (∀ rest, parseInstructions (0x0B :: rest) = (Except.ok [], rest)) ∧
    (∀ b s i s', b ≠ 0x0B → parseInstruction b s = (Except.ok i, s') →
      parseInstructions (b :: s) =
        (Except.map (fun l => i :: l) (parseInstructions s').1, (parseInstructions s').2)) ∧
    (parseInstructions [] =
      (Except.error (GoErr.wrap "reading instruction byte failed" GoErr.eof), [])) ∧
    (∀ b s e s', b ≠ 0x0B → parseInstruction b s = (Except.error e, s') →
      parseInstructions (b :: s) = (Except.error (GoErr.msg (unknownOpcodeMsg b)), s')) ∧
    ((Parse [0x00, 0x61, 0x73, 0x6D, 0x01, 0x00, 0x00, 0x00,
        0x0A, 0x05, 0x01, 0x03, 0x00, 0xFF, 0x0B]).1 =
      Except.error (GoErr.wrap "reading function body failed"
        (GoErr.msg (unknownOpcodeMsg 0xFF)))) := by
  refine ⟨?_, ?_, rfl, ?_, by decide⟩
  · intro rest
    rw [parseInstructions_cons]
    simp
  · intro b s i s' hb h
    rw [parseInstructions_cons, if_neg hb]
    split
    next e u heq => rw [h] at heq; simp at heq
    next i2 u heq =>
      rw [h] at heq
      simp only [Prod.mk.injEq, Except.ok.injEq] at heq
      obtain ⟨hi, hu⟩ := heq
      subst hi
      subst hu
      split
      next l v heq2 => rw [heq2]; simp [Except.map]
      next e v heq2 => rw [heq2]; simp [Except.map]
  · intro b s e s' hb h
    rw [parseInstructions_cons, if_neg hb]
    split
    next e2 u heq =>
      rw [h] at heq
      simp only [Prod.mk.injEq, Except.error.injEq] at heq
      rw [heq.2]
    next i u heq => rw [h] at heq; simp at heq

/-- Witness for C8: `local.get 5` followed by the terminator decodes to
exactly that one instruction with the terminator consumed; the unknown
opcode `0xFE` fails the sequence with no partial result. -/
theorem claim8_witness :
    parseInstructions [0x20, 0x05, 0x0B, 0x77] =
      (Except.ok [Instruction.localGet 5], [0x77]) ∧
    parseInstructions [0xFE, 0x0B] =
      (Except.error (GoErr.msg (unknownOpcodeMsg 0xFE)), [0x0B]) := by
  refine ⟨?_, ?_⟩
  · have h := claim8_instruction_sequence.2.1 0x20 [0x05, 0x0B, 0x77]
      (Instruction.localGet 5) [0x0B, 0x77] (by decide) (by decide)
    rw [h]
    decide
  · exact claim8_instruction_sequence.2.2.2.1 0xFE [0x0B]
      (GoErr.msg (unknownOpcodeMsg 0xFE)) [0x0B] (by decide) (by decide)

/-- Claim C9: a stream whose first four bytes differ from `00 61 73 6D`
fails before any section is attempted (the stream is left right after those
four bytes); a stream with the correct magic whose next four bytes differ
from `01 00 00 00` also fails with only the eight header bytes consumed. -/
theorem claim9_header_check :
    (∀ b0 b1 b2 b3 rest, b0 < 256 → b1 < 256 → b2 < 256 → b3 < 256 →
      ¬ (b0 = 0x00 ∧ b1 = 0x61 ∧ b2 = 0x73 ∧ b3 = 0x6D) →
      ∃ e, Parse (b0 :: b1 :: b2 :: b3 :: rest) = (Except.error e, rest)) ∧
    (∀ v0 v1 v2 v3 rest, v0 < 256 → v1 < 256 → v2 < 256 → v3 < 256 →
      ¬ (v0 = 0x01 ∧ v1 = 0x00 ∧ v2 = 0x00 ∧ v3 = 0x00) →
      ∃ e, Parse (0x00 :: 0x61 :: 0x73 :: 0x6D :: v0 :: v1 :: v2 :: v3 :: rest) =
        (Except.error e, rest)) := by
  constructor
  · intro b0 b1 b2 b3 rest h0 h1 h2 h3 hne
    have hm : ((b0 * 256 + b1) * 256 + b2) * 256 + b3 ≠ 0x0061736D := by omega
    exact ⟨_, by simp only [Parse]; rw [if_neg hm]⟩
  · intro v0 v1 v2 v3 rest h0 h1 h2 h3 hne
    have hv : ((v0 * 256 + v1) * 256 + v2) * 256 + v3 ≠ 0x01000000 := by omega
    exact ⟨_, by
      simp only [Parse]
      rw [if_neg hv, if_pos trivial]⟩

/-- Witness for C9: a wrong magic and, separately, a wrong version each fail
with exactly the four (resp. eight) header bytes consumed. -/
theorem claim9_witness :
    (∃ e, Parse [0x01, 0x02, 0x03, 0x04, 0x09] = (Except.error e, [0x09])) ∧
    (∃ e, Parse [0x00, 0x61, 0x73, 0x6D, 0x02, 0x00, 0x00, 0x00, 0x09] =
      (Except.error e, [0x09])) :=
  ⟨claim9_header_check.1 0x01 0x02 0x03 0x04 [0x09]
      (by decide) (by decide) (by decide) (by decide) (by decide),
   claim9_header_check.2 0x02 0x00 0x00 0x00 [0x09]
      (by decide) (by decide) (by decide) (by decide) (by decide)⟩

/-- Claim C10: when a narrowing reader rejects a too-wide value, the whole
LEB128 encoding has already been consumed: the stream ends up exactly where
`ReadUleb128` left it — immediately after the terminating byte — not
restored to where the read began. -/
theorem claim10_overflow_leaves_stream_after_encoding :
    ∀ (s : List Nat) (v : Nat) (s' : List Nat), ReadUleb128 s = (Except.ok v, s') →
    ((2 ^ 32 ≤ v → ReadUint32 s =
      (Except.error (GoErr.msg ("uleb128 is too large for an uint8: " ++ decStr v)), s')) ∧
     (2 ^ 8 ≤ v → ReadUint8 s =
      (Except.error (GoErr.msg ("uleb128 is too large for an uint8: " ++ decStr v)), s'))) := by
  intro s v s' h
  have h8 := bitLen_le_iff v 8
  have h32 := bitLen_le_iff v 32
  constructor
  · intro hv
    have hgt : bitLen v > 32 := by omega
    unfold ReadUint32
    rw [h]
    simp [hgt]
  · intro hv
    have hgt : bitLen v > 8 := by omega
    unfold ReadUint8
    rw [h]
    simp [hgt]

/-- Witness for C10: reading `2 ^ 32` (five LEB128 bytes) through
`ReadUint32` fails with the overflow error while the stream is positioned
after the encoding's terminator, at the trailing byte `0x55`. -/
theorem claim10_witness :
    ReadUint32 [0x80, 0x80, 0x80, 0x80, 0x10, 0x55] =
      (Except.error (GoErr.msg ("uleb128 is too large for an uint8: " ++
        decStr 4294967296)), [0x55]) :=
  (claim10_overflow_leaves_stream_after_encoding
    [0x80, 0x80, 0x80, 0x80, 0x10, 0x55] 4294967296 [0x55] (by decide)).1 (by decide)

end Jwasm
